import Mathlib

/-!
Verification of the PVSS share-aggregation core of Optrand-PVSS.

The development shallowly embeds the two source files
`src/modified_scrape/pvss.rs` (the `PVSSCore` homomorphic accumulator) and
`src/modified_scrape/share.rs` (`SignedProof`, `PVSSShare`,
`PVSSAggregatedShare` and their aggregation methods).

Modelling conventions:
* The two elliptic-curve groups `E::G1Projective` / `E::G2Projective` are
  arbitrary types `G1`, `G2` carrying the instances each operation uses
  (`Zero` for `empty`, `Add` for `aggregate`).
* `DecompProof` and `Signature` are external to the embedded files; they are
  modelled from the spec as an opaque commitment field plus opaque payloads.
* Rust `Result` is `Except`; a Rust function that can `panic` (the source
  calls `.unwrap()` on nested `Result`s in two places) is modelled with the
  three-valued `RustResult`, whose `panicked` outcome stands for process
  termination.
* `BTreeMap<usize, SignedProof>` is modelled as an association list ordered
  by key; every map the embedded code constructs is built in ascending key
  order, so list equality coincides with `BTreeMap` equality.
-/

namespace Optrand

/-- Error type: the variants of `PVSSError` used by the embedded code
(from `modified_scrape/errors.rs`, as named at each `return Err` site of
the two embedded source files). -/
inductive PVSSError where
  | EmptyEncryptionsVectorError : PVSSError
  | MismatchedCommitmentsError : Nat → Nat → PVSSError
  | MismatchedEncryptionsError : Nat → Nat → PVSSError
  | MismatchedCommitmentsEncryptionsError : Nat → Nat → PVSSError
  | TranscriptDifferentConfig : Nat → Nat → Nat → Nat → PVSSError
  | TranscriptDifferentCommitments : PVSSError

deriving instance DecidableEq for PVSSError

/-- Outcome of a Rust function that may return `Ok`, return `Err`, or
terminate the process (an `.unwrap()` of a failed nested `Result`). -/
inductive RustResult (ε α : Type) where
  | ok : α → RustResult ε α
  | err : ε → RustResult ε α
  | panicked : RustResult ε α

deriving instance DecidableEq for RustResult

/-- `PVSSCore` from pvss.rs: the vector of encryptions (group `G1`) and the
vector of commitments (group `G2`). -/
structure PVSSCore (G1 G2 : Type) where
  encs : List G1
  comms : List G2

deriving instance DecidableEq for PVSSCore

/-- `PVSSCore::empty` from pvss.rs: both vectors filled with the group zero. -/
def PVSSCore.empty {G1 G2 : Type} [Zero G1] [Zero G2] (num_participants : Nat) :
    PVSSCore G1 G2 :=
  ⟨List.replicate num_participants 0, List.replicate num_participants 0⟩

/-- `PVSSCore::aggregate` from pvss.rs: four guard checks in source order,
then pointwise addition of the two vector pairs. -/
def PVSSCore.aggregate {G1 G2 : Type} [Add G1] [Add G2]
    (s other : PVSSCore G1 G2) : Except PVSSError (PVSSCore G1 G2) :=
  if s.comms.length = 0 then
    Except.error PVSSError.EmptyEncryptionsVectorError
  else if s.comms.length ≠ other.comms.length then
    Except.error (PVSSError.MismatchedCommitmentsError s.comms.length other.comms.length)
  else if s.encs.length ≠ other.encs.length then
    Except.error (PVSSError.MismatchedEncryptionsError s.encs.length other.encs.length)
  else if s.comms.length ≠ s.encs.length then
    Except.error (PVSSError.MismatchedCommitmentsEncryptionsError s.comms.length other.encs.length)
  else
    Except.ok ⟨List.zipWith (fun a b => a + b) s.encs other.encs,
               List.zipWith (fun a b => a + b) s.comms other.comms⟩

/-- Modelled from the spec: `DecompProof` lives in `modified_scrape/decomp.rs`,
which is outside the embedded sources.  The spec describes it as an opaque
proof object exposing a commitment field `gs` that merges compare for
equality; `body` stands for the rest of the opaque proof data. -/
structure DecompProof (GS : Type) where
  gs : GS
  body : Nat

deriving instance DecidableEq for DecompProof

/-- `SignedProof` from share.rs: a decomposition proof together with a
signature on it.  The signature type `Sig` is opaque. -/
structure SignedProof (GS Sig : Type) where
  decomp_proof : DecompProof GS
  signature_on_decomp : Sig

deriving instance DecidableEq for SignedProof

/-- `SignedProof::verify` from share.rs.  The two nested checks
(`DecompProof::verify` and `Signature::verify`) are outside the embedded
sources and are modelled from the spec as boolean oracles `decompOk` and
`sigOk`.  The source calls `.unwrap()` on each nested `Result`, so a failed
check terminates the process: modelled as `RustResult.panicked`. -/
def SignedProof.verify {GS Sig : Type} (decompOk : DecompProof GS → Bool)
    (sigOk : DecompProof GS → Sig → Bool) (sp : SignedProof GS Sig) :
    RustResult PVSSError Unit :=
  if decompOk sp.decomp_proof then
    if sigOk sp.decomp_proof sp.signature_on_decomp then RustResult.ok ()
    else RustResult.panicked
  else RustResult.panicked

/-- `PVSSShare` from share.rs. -/
structure PVSSShare (G1 G2 GS Sig : Type) where
  participant_id : Nat
  pvss_core : PVSSCore G1 G2
  signed_proof : SignedProof GS Sig

deriving instance DecidableEq for PVSSShare

/-- `PVSSAggregatedShare` from share.rs.  `contributions` models the
`BTreeMap<usize, SignedProof>` as a key-ordered association list. -/
structure PVSSAggregatedShare (G1 G2 GS Sig : Type) where
  num_participants : Nat
  degree : Nat
  pvss_core : PVSSCore G1 G2
  contributions : List (Nat × SignedProof GS Sig)

deriving instance DecidableEq for PVSSAggregatedShare

/-- `BTreeMap::get`: first value stored under key `i`. -/
def lookupMap {α : Type} (i : Nat) : List (Nat × α) → Option α
  | [] => none
  | (k, v) :: rest => if k = i then some v else lookupMap i rest

/-- One slot of the contribution merge in `PVSSAggregatedShare::aggregate`
(share.rs lines 110-125): the `match` on
`(self.contributions.get(&i), other.contributions.get(&i))`. -/
def mergeAt {GS Sig : Type} [DecidableEq GS]
    (a b : List (Nat × SignedProof GS Sig)) (i : Nat) :
    Except PVSSError (Option (Nat × SignedProof GS Sig)) :=
  match lookupMap i a, lookupMap i b with
  | some pa, some pb =>
      if pa.decomp_proof.gs ≠ pb.decomp_proof.gs then
        Except.error PVSSError.TranscriptDifferentCommitments
      else
        Except.ok (some (i, ⟨pa.decomp_proof, pa.signature_on_decomp⟩))
  | some pa, none => Except.ok (some (i, pa))
  | none, some pb => Except.ok (some (i, pb))
  | none, none => Except.ok none

/-- The contribution-merging loop of `PVSSAggregatedShare::aggregate`
(share.rs lines 108-130): map `mergeAt` over the id range, short-circuit at
the first error (`collect::<Result<Vec<_>, _>>`), drop the `None` slots
(`filter_map`). -/
def mergeLoop {GS Sig : Type} [DecidableEq GS]
    (a b : List (Nat × SignedProof GS Sig)) :
    List Nat → Except PVSSError (List (Nat × SignedProof GS Sig))
  | [] => Except.ok []
  | i :: rest =>
    match mergeAt a b i with
    | Except.error e => Except.error e
    | Except.ok entry =>
      match mergeLoop a b rest with
      | Except.error e => Except.error e
      | Except.ok tail =>
        match entry with
        | some p => Except.ok (p :: tail)
        | none => Except.ok tail

/-- `PVSSAggregatedShare::empty` from share.rs. -/
def PVSSAggregatedShare.empty {G1 G2 GS Sig : Type} [Zero G1] [Zero G2]
    (degree num_participants : Nat) : PVSSAggregatedShare G1 G2 GS Sig :=
  ⟨num_participants, degree, PVSSCore.empty num_participants, []⟩

/-- `PVSSAggregatedShare::aggregate` from share.rs: the configuration guard,
the contribution merge over ids `0..self.num_participants`, then
`self.pvss_core.aggregate(&other.pvss_core).unwrap()` — the source unwraps
the core aggregation, so its failure terminates the process (`panicked`). -/
def PVSSAggregatedShare.aggregate {G1 G2 GS Sig : Type} [Add G1] [Add G2]
    [DecidableEq GS] (s other : PVSSAggregatedShare G1 G2 GS Sig) :
    RustResult PVSSError (PVSSAggregatedShare G1 G2 GS Sig) :=
  if s.degree ≠ other.degree ∨ s.num_participants ≠ other.num_participants then
    RustResult.err (PVSSError.TranscriptDifferentConfig s.degree other.degree
      s.num_participants other.num_participants)
  else
    match mergeLoop s.contributions other.contributions (List.range s.num_participants) with
    | Except.error e => RustResult.err e
    | Except.ok contributions =>
      match s.pvss_core.aggregate other.pvss_core with
      | Except.error _ => RustResult.panicked
      | Except.ok core =>
        RustResult.ok ⟨s.num_participants, s.degree, core, contributions⟩

/-- `PVSSAggregatedShare::aggregate_pvss_share` from share.rs: wrap the
incoming share as a one-entry aggregate carrying `self`'s configuration and
delegate to `aggregate`. -/
def PVSSAggregatedShare.aggregate_pvss_share {G1 G2 GS Sig : Type} [Add G1]
    [Add G2] [DecidableEq GS] (s : PVSSAggregatedShare G1 G2 GS Sig)
    (other : PVSSShare G1 G2 GS Sig) :
    RustResult PVSSError (PVSSAggregatedShare G1 G2 GS Sig) :=
  PVSSAggregatedShare.aggregate s
    ⟨s.num_participants, s.degree, other.pvss_core,
     [(other.participant_id,
       ⟨other.signed_proof.decomp_proof, other.signed_proof.signature_on_decomp⟩)]⟩

/-- Folding a stream of shares into an aggregate, one
`aggregate_pvss_share` step per share, stopping at the first non-`ok`
outcome. -/
def foldShares {G1 G2 GS Sig : Type} [Add G1] [Add G2] [DecidableEq GS]
    (acc : PVSSAggregatedShare G1 G2 GS Sig) :
    List (PVSSShare G1 G2 GS Sig) →
      RustResult PVSSError (PVSSAggregatedShare G1 G2 GS Sig)
  | [] => RustResult.ok acc
  | sh :: rest =>
    match acc.aggregate_pvss_share sh with
    | RustResult.ok acc2 => foldShares acc2 rest
    | RustResult.err e => RustResult.err e
    | RustResult.panicked => RustResult.panicked

/-! ## Helper notions about the contribution merge -/

/-- Whether the two maps hold proofs with different commitment fields at
id `i` (the condition making the merge slot fail). -/
def conflictAt {GS Sig : Type} [DecidableEq GS]
    (a b : List (Nat × SignedProof GS Sig)) (i : Nat) : Bool :=
  match lookupMap i a, lookupMap i b with
  | some pa, some pb => decide (pa.decomp_proof.gs ≠ pb.decomp_proof.gs)
  | _, _ => false

/-- The proof a successful merge stores at id `i` (the `self` copy when both
maps hold one). -/
def mergedEntry {GS Sig : Type} (a b : List (Nat × SignedProof GS Sig))
    (i : Nat) : Option (SignedProof GS Sig) :=
  match lookupMap i a, lookupMap i b with
  | some pa, some _ => some pa
  | some pa, none => some pa
  | none, some pb => some pb
  | none, none => none

theorem mergeAt_of_not_conflict {GS Sig : Type} [DecidableEq GS]
    (a b : List (Nat × SignedProof GS Sig)) (i : Nat)
    (h : conflictAt a b i = false) :
    mergeAt a b i = Except.ok ((mergedEntry a b i).map fun p => (i, p)) := by
  unfold conflictAt at h
  unfold mergeAt mergedEntry
  cases ha : lookupMap i a <;> cases hb : lookupMap i b <;>
    simp [ha, hb] at h ⊢
  exact h

theorem mergeAt_of_conflict {GS Sig : Type} [DecidableEq GS]
    (a b : List (Nat × SignedProof GS Sig)) (i : Nat)
    (h : conflictAt a b i = true) :
    mergeAt a b i = Except.error PVSSError.TranscriptDifferentCommitments := by
  unfold conflictAt at h
  unfold mergeAt
  cases ha : lookupMap i a <;> cases hb : lookupMap i b <;>
    simp [ha, hb] at h ⊢
  exact h

theorem mergeAt_error_kind {GS Sig : Type} [DecidableEq GS]
    (a b : List (Nat × SignedProof GS Sig)) (i : Nat) (e : PVSSError)
    (h : mergeAt a b i = Except.error e) :
    e = PVSSError.TranscriptDifferentCommitments := by
  cases hc : conflictAt a b i with
  | true =>
    rw [mergeAt_of_conflict a b i hc] at h
    cases h
    rfl
  | false =>
    rw [mergeAt_of_not_conflict a b i hc] at h
    cases h

theorem mergeLoop_ok_of_not_conflict {GS Sig : Type} [DecidableEq GS]
    (a b : List (Nat × SignedProof GS Sig)) (l : List Nat)
    (h : ∀ i ∈ l, conflictAt a b i = false) :
    mergeLoop a b l =
      Except.ok (l.filterMap fun i => (mergedEntry a b i).map fun p => (i, p)) := by
  induction l with
  | nil => rfl
  | cons j l ih =>
    have hj := mergeAt_of_not_conflict a b j (h j (List.mem_cons_self j l))
    have ht := ih fun i hi => h i (List.mem_cons_of_mem j hi)
    simp only [mergeLoop, hj, ht, List.filterMap_cons]
    cases mergedEntry a b j <;> simp

theorem mergeAt_ok_key {GS Sig : Type} [DecidableEq GS]
    (a b : List (Nat × SignedProof GS Sig)) (i : Nat)
    (q : Nat × SignedProof GS Sig) (h : mergeAt a b i = Except.ok (some q)) :
    q.1 = i := by
  cases hc : conflictAt a b i with
  | true =>
    rw [mergeAt_of_conflict a b i hc] at h
    cases h
  | false =>
    rw [mergeAt_of_not_conflict a b i hc] at h
    cases hme : mergedEntry a b i <;> rw [hme] at h
    · cases h
    · cases h
      rfl

theorem mergeLoop_error_kind {GS Sig : Type} [DecidableEq GS]
    (a b : List (Nat × SignedProof GS Sig)) (l : List Nat) :
    ∀ e : PVSSError, mergeLoop a b l = Except.error e →
      e = PVSSError.TranscriptDifferentCommitments := by
  induction l with
  | nil =>
    intro e h
    simp [mergeLoop] at h
  | cons j l ih =>
    intro e h
    simp only [mergeLoop] at h
    cases hj : mergeAt a b j with
    | error e2 =>
      rw [hj] at h
      simp only [] at h
      cases h
      exact mergeAt_error_kind a b j e hj
    | ok entry =>
      rw [hj] at h
      cases ht : mergeLoop a b l with
      | error e2 =>
        rw [ht] at h
        cases entry <;> simp only [] at h <;> cases h <;> exact ih e ht
      | ok tail =>
        rw [ht] at h
        cases entry <;> simp only [] at h <;> cases h

theorem mergeLoop_conflict {GS Sig : Type} [DecidableEq GS]
    (a b : List (Nat × SignedProof GS Sig)) (l : List Nat) (i : Nat)
    (hi : i ∈ l) (h : conflictAt a b i = true) :
    mergeLoop a b l = Except.error PVSSError.TranscriptDifferentCommitments := by
  induction l with
  | nil => cases hi
  | cons j l ih =>
    by_cases hj : conflictAt a b j = true
    · simp only [mergeLoop, mergeAt_of_conflict a b j hj]
    · have hj2 : conflictAt a b j = false := by
        cases hcj : conflictAt a b j
        · rfl
        · exact absurd hcj hj
      have hil : i ∈ l := by
        rcases List.mem_cons.mp hi with rfl | hmem
        · exact absurd h hj
        · exact hmem
      simp only [mergeLoop, mergeAt_of_not_conflict a b j hj2, ih hil]

theorem mergeLoop_ok_keys {GS Sig : Type} [DecidableEq GS]
    (a b : List (Nat × SignedProof GS Sig)) (l : List Nat)
    (m : List (Nat × SignedProof GS Sig)) (h : mergeLoop a b l = Except.ok m) :
    ∀ k p, (k, p) ∈ m → k ∈ l := by
  induction l generalizing m with
  | nil =>
    simp only [mergeLoop] at h
    cases h
    intro k p hk
    cases hk
  | cons j l ih =>
    simp only [mergeLoop] at h
    cases hj : mergeAt a b j with
    | error e2 => rw [hj] at h; cases h
    | ok entry =>
      rw [hj] at h
      cases ht : mergeLoop a b l with
      | error e2 => rw [ht] at h; cases h
      | ok tail =>
        rw [ht] at h
        have hkey : ∀ k p, (k, p) ∈ tail → k ∈ l := ih tail ht
        cases entry with
        | none =>
          simp only [] at h
          cases h
          intro k p hk
          exact List.mem_cons_of_mem j (hkey k p hk)
        | some q =>
          have hq : q.1 = j := mergeAt_ok_key a b j q hj
          simp only [] at h
          cases h
          intro k p hk
          rcases List.mem_cons.mp hk with heq | hmem
          · have hkq : k = q.1 := congrArg Prod.fst heq
            rw [hkq, hq]
            exact List.mem_cons_self j l
          · exact List.mem_cons_of_mem j (hkey k p hmem)

theorem lookupMap_filterMap {α : Type} (g : Nat → Option α) (l : List Nat)
    (hl : l.Nodup) (i : Nat) :
    lookupMap i (l.filterMap fun j => (g j).map fun p => (j, p)) =
      if i ∈ l then g i else none := by
  induction l with
  | nil => simp [lookupMap]
  | cons j l ih =>
    rw [List.nodup_cons] at hl
    rw [List.filterMap_cons]
    cases hgj : g j with
    | none =>
      simp only [hgj, Option.map_none', ih hl.2]
      by_cases hij : i = j
      · subst hij
        simp [hl.1, hgj]
      · simp [hij]
    | some v =>
      simp only [hgj, Option.map_some']
      show lookupMap i ((j, (j, v).2) :: _) = _
      rw [lookupMap]
      by_cases hij : j = i
      · subst hij
        simp [hgj]
      · rw [if_neg hij, ih hl.2]
        have hij2 : i ≠ j := fun h2 => hij h2.symm
        simp [List.mem_cons, hij2]

/-! ## Pointwise-addition helpers -/

theorem zipWith_add_replicate_zero {G : Type} [AddMonoid G] (l : List G)
    (n : Nat) (h : l.length = n) :
    List.zipWith (fun a b => a + b) (List.replicate n 0) l = l := by
  subst h
  induction l with
  | nil => rfl
  | cons x l ih => simp [List.replicate_succ, ih]

theorem zipWith_add_comm {G : Type} [AddCommMonoid G] (l1 l2 : List G) :
    List.zipWith (fun a b => a + b) l1 l2 = List.zipWith (fun a b => a + b) l2 l1 :=
  List.zipWith_comm_of_comm _ add_comm l1 l2

theorem zipWith_add_assoc {G : Type} [AddCommMonoid G] (l1 l2 l3 : List G) :
    List.zipWith (fun a b => a + b) (List.zipWith (fun a b => a + b) l1 l2) l3 =
      List.zipWith (fun a b => a + b) l1 (List.zipWith (fun a b => a + b) l2 l3) := by
  induction l1 generalizing l2 l3 with
  | nil => rfl
  | cons x l1 ih =>
    cases l2 with
    | nil => rfl
    | cons y l2 =>
      cases l3 with
      | nil => rfl
      | cons z l3 => simp [ih, add_assoc]

theorem zipWith_add_self {G : Type} [Add G] (l : List G) :
    List.zipWith (fun a b => a + b) l l = l.map fun x => x + x := by
  induction l with
  | nil => rfl
  | cons x l ih => simp [ih]

/-! ## Claim theorems: PVSSCore -/

/-- C3: for two `PVSSCore` values whose `encs` and `comms` vectors all share
one non-zero length, `PVSSCore::aggregate` returns `Ok` of the core whose
entries are the pointwise group sums of the operands' entries. -/
theorem core_aggregate_pointwise {G1 G2 : Type} [Add G1] [Add G2]
    (s o : PVSSCore G1 G2) (n : Nat) (hn : n ≠ 0)
    (hse : s.encs.length = n) (hsc : s.comms.length = n)
    (hoe : o.encs.length = n) (hoc : o.comms.length = n) :
    ∃ r : PVSSCore G1 G2, s.aggregate o = Except.ok r ∧
      r.encs.length = n ∧ r.comms.length = n ∧
      (∀ (i : Nat) (h : i < r.encs.length) (h1 : i < s.encs.length)
          (h2 : i < o.encs.length),
        r.encs.get ⟨i, h⟩ = s.encs.get ⟨i, h1⟩ + o.encs.get ⟨i, h2⟩) ∧
      (∀ (i : Nat) (h : i < r.comms.length) (h1 : i < s.comms.length)
          (h2 : i < o.comms.length),
        r.comms.get ⟨i, h⟩ = s.comms.get ⟨i, h1⟩ + o.comms.get ⟨i, h2⟩) := by
  refine ⟨⟨List.zipWith (fun a b => a + b) s.encs o.encs,
           List.zipWith (fun a b => a + b) s.comms o.comms⟩, ?_, ?_, ?_, ?_, ?_⟩
  · unfold PVSSCore.aggregate
    rw [if_neg (by omega), if_neg (by omega), if_neg (by omega), if_neg (by omega)]
  · simp [hse, hoe]
  · simp [hsc, hoc]
  · intro i h h1 h2
    simp [List.get_eq_getElem, List.getElem_zipWith]
  · intro i h h1 h2
    simp [List.get_eq_getElem, List.getElem_zipWith]

/-- Witness for C3 at a concrete input: singleton integer cores. -/
theorem core_aggregate_pointwise_witness :
    ∃ r : PVSSCore Int Int,
      PVSSCore.aggregate ⟨[1], [2]⟩ ⟨[3], [4]⟩ = Except.ok r ∧
      r.encs.length = 1 ∧ r.comms.length = 1 ∧
      (∀ (i : Nat) (h : i < r.encs.length) (h1 : i < ([1] : List Int).length)
          (h2 : i < ([3] : List Int).length),
        r.encs.get ⟨i, h⟩ = ([1] : List Int).get ⟨i, h1⟩ + ([3] : List Int).get ⟨i, h2⟩) ∧
      (∀ (i : Nat) (h : i < r.comms.length) (h1 : i < ([2] : List Int).length)
          (h2 : i < ([4] : List Int).length),
        r.comms.get ⟨i, h⟩ = ([2] : List Int).get ⟨i, h1⟩ + ([4] : List Int).get ⟨i, h2⟩) :=
  core_aggregate_pointwise ⟨[1], [2]⟩ ⟨[3], [4]⟩ 1 (by decide) rfl rfl rfl rfl

/-- C8 counterexample: a pair of operands whose `encs` vectors are empty but
whose `comms` vectors are not is rejected with the within-operand
length-mismatch kind, not with `EmptyVector`, refuting the claim that any
zero-length vector among the four produces the `EmptyVector` kind. -/
theorem core_aggregate_empty_encs_counterexample :
    (⟨[], [(0 : Int)]⟩ : PVSSCore Int Int).encs.length = 0 ∧
    (⟨[], [(0 : Int)]⟩ : PVSSCore Int Int).aggregate ⟨[], [(0 : Int)]⟩ =
      Except.error (PVSSError.MismatchedCommitmentsEncryptionsError 1 0) ∧
    PVSSError.MismatchedCommitmentsEncryptionsError 1 0 ≠
      PVSSError.EmptyEncryptionsVectorError := by
  exact ⟨rfl, rfl, by decide⟩

/-- C8 amended: `PVSSCore::aggregate` fails with the `EmptyVector` kind
exactly when `self.comms` has length zero; in particular aggregating
`PVSSCore::empty(0)` with itself fails with `EmptyVector`. -/
theorem core_aggregate_emptyVector_iff {G1 G2 : Type} [Add G1] [Add G2] :
    (∀ s o : PVSSCore G1 G2,
      s.aggregate o = Except.error PVSSError.EmptyEncryptionsVectorError ↔
        s.comms.length = 0) ∧
    (PVSSCore.empty 0 : PVSSCore Int Int).aggregate (PVSSCore.empty 0) =
      Except.error PVSSError.EmptyEncryptionsVectorError := by
  constructor
  · intro s o
    constructor
    · intro h
      by_contra hc
      unfold PVSSCore.aggregate at h
      rw [if_neg hc] at h
      split at h
      · cases h
      · split at h
        · cases h
        · split at h
          · cases h
          · cases h
    · intro h
      unfold PVSSCore.aggregate
      rw [if_pos h]
  · rfl

/-! ## Claim theorems: SignedProof and aggregate error handling -/

/-- C4 (code bug): `SignedProof::verify` calls `.unwrap()` on both nested
verification results, so a failing decomposition proof or a failing
signature terminates the process instead of returning a distinguishable
`Err`; evaluated here at concrete failing inputs. -/
theorem signedProof_verify_panics :
    SignedProof.verify (fun _ : DecompProof Nat => false) (fun _ _ => true)
      (⟨⟨0, 0⟩, (0 : Nat)⟩ : SignedProof Nat Nat) = RustResult.panicked ∧
    SignedProof.verify (fun _ : DecompProof Nat => true) (fun _ _ => false)
      (⟨⟨0, 0⟩, (0 : Nat)⟩ : SignedProof Nat Nat) = RustResult.panicked :=
  ⟨rfl, rfl⟩

/-- C5 (code bug): when `PVSSCore::aggregate` of the two cores fails,
`PVSSAggregatedShare::aggregate` unwraps the failure and terminates the
process instead of returning the error; evaluated at the concrete input
`empty(3, 0)` merged with itself, whose core aggregation fails with
`EmptyVector`. -/
theorem aggregate_panics_on_core_error :
    (PVSSAggregatedShare.empty 3 0 : PVSSAggregatedShare Int Int Nat Nat).pvss_core.aggregate
        (PVSSAggregatedShare.empty 3 0 : PVSSAggregatedShare Int Int Nat Nat).pvss_core =
      Except.error PVSSError.EmptyEncryptionsVectorError ∧
    (PVSSAggregatedShare.empty 3 0 : PVSSAggregatedShare Int Int Nat Nat).aggregate
      (PVSSAggregatedShare.empty 3 0) = RustResult.panicked :=
  ⟨rfl, rfl⟩

/-- C7: `PVSSAggregatedShare::aggregate` fails with
`TranscriptDifferentConfig (self.degree, other.degree, self.n, other.n)`
exactly when the degrees or the participant counts differ; with both equal
the configuration check passes (no such error can be produced). -/
theorem aggregate_configMismatch_iff {G1 G2 GS Sig : Type} [Add G1] [Add G2]
    [DecidableEq GS] (s o : PVSSAggregatedShare G1 G2 GS Sig) :
    s.aggregate o =
        RustResult.err (PVSSError.TranscriptDifferentConfig s.degree o.degree
          s.num_participants o.num_participants) ↔
      (s.degree ≠ o.degree ∨ s.num_participants ≠ o.num_participants) := by
  constructor
  · intro h
    by_contra hc
    unfold PVSSAggregatedShare.aggregate at h
    rw [if_neg hc] at h
    cases hml : mergeLoop s.contributions o.contributions
        (List.range s.num_participants) with
    | error e =>
      rw [hml] at h
      simp only [] at h
      cases h
      have := mergeLoop_error_kind s.contributions o.contributions
        (List.range s.num_participants) _ hml
      cases this
    | ok m =>
      rw [hml] at h
      cases hca : s.pvss_core.aggregate o.pvss_core with
      | error e2 =>
        rw [hca] at h
        simp only [] at h
        cases h
      | ok core =>
        rw [hca] at h
        simp only [] at h
        cases h
  · intro h
    unfold PVSSAggregatedShare.aggregate
    rw [if_pos h]

/-- C10: `aggregate_pvss_share` can never fail with the configuration
mismatch kind: the intermediate one-entry aggregate is built with `self`'s
own `num_participants` and `degree`, so the configuration check always
passes, and any `err` the operation returns is the equivocation kind
`TranscriptDifferentCommitments` — never `TranscriptDifferentConfig`. -/
theorem aggregate_pvss_share_err_kind {G1 G2 GS Sig : Type} [Add G1]
    [Add G2] [DecidableEq GS] (s : PVSSAggregatedShare G1 G2 GS Sig)
    (sh : PVSSShare G1 G2 GS Sig) (e : PVSSError)
    (h : s.aggregate_pvss_share sh = RustResult.err e) :
    e = PVSSError.TranscriptDifferentCommitments := by
  unfold PVSSAggregatedShare.aggregate_pvss_share PVSSAggregatedShare.aggregate at h
  rw [if_neg (by simp)] at h
  cases hml : mergeLoop s.contributions
      [(sh.participant_id,
        ⟨sh.signed_proof.decomp_proof, sh.signed_proof.signature_on_decomp⟩)]
      (List.range s.num_participants) with
  | error e2 =>
    rw [hml] at h
    simp only [] at h
    cases h
    exact mergeLoop_error_kind s.contributions _ _ _ hml
  | ok m =>
    rw [hml] at h
    cases hca : s.pvss_core.aggregate sh.pvss_core with
    | error e2 =>
      rw [hca] at h
      simp only [] at h
      cases h
    | ok core =>
      rw [hca] at h
      simp only [] at h
      cases h

/-- Witness for C10: a fold that does fail (an equivocating duplicate id)
fails with the `TranscriptDifferentCommitments` kind. -/
theorem aggregate_pvss_share_err_kind_witness :
    (⟨1, 0, ⟨[(0 : Int)], [(0 : Int)]⟩, [(0, ⟨⟨(0 : Int), 0⟩, (0 : Nat)⟩)]⟩ :
        PVSSAggregatedShare Int Int Int Nat).aggregate_pvss_share
        ⟨0, ⟨[0], [0]⟩, ⟨⟨1, 0⟩, 0⟩⟩ =
      RustResult.err PVSSError.TranscriptDifferentCommitments ∧
    PVSSError.TranscriptDifferentCommitments =
      PVSSError.TranscriptDifferentCommitments :=
  ⟨by decide,
   aggregate_pvss_share_err_kind
     (⟨1, 0, ⟨[(0 : Int)], [(0 : Int)]⟩, [(0, ⟨⟨(0 : Int), 0⟩, (0 : Nat)⟩)]⟩ :
       PVSSAggregatedShare Int Int Int Nat)
     ⟨0, ⟨[0], [0]⟩, ⟨⟨1, 0⟩, 0⟩⟩ PVSSError.TranscriptDifferentCommitments
     (by decide)⟩

theorem lookupMap_singleton {α : Type} (i k : Nat) (v : α) :
    lookupMap i [(k, v)] = if k = i then some v else none := rfl

/-- C1 counterexample.  Part one: two equal-config aggregates that both hold
a proof for id 5 with different commitment fields, but with
`num_participants = 2`, merge successfully — the merge loop only scans ids
below `num_participants`, so the claimed `Equivocation` failure does not
occur.  Part two: two aggregates with no shared id (commitment agreement is
vacuous) but zero-length cores do not merge successfully — the unwrapped
core aggregation terminates the process. -/
theorem aggregate_equivocation_counterexample :
    lookupMap 5 [(5, (⟨⟨0, 0⟩, 0⟩ : SignedProof Int Nat))] = some ⟨⟨0, 0⟩, 0⟩ ∧
    lookupMap 5 [(5, (⟨⟨1, 0⟩, 0⟩ : SignedProof Int Nat))] = some ⟨⟨1, 0⟩, 0⟩ ∧
    (⟨⟨(0 : Int), 0⟩, (0 : Nat)⟩ : SignedProof Int Nat).decomp_proof.gs ≠
      (⟨⟨1, 0⟩, 0⟩ : SignedProof Int Nat).decomp_proof.gs ∧
    (⟨2, 1, ⟨[0, 0], [0, 0]⟩, [(5, ⟨⟨0, 0⟩, 0⟩)]⟩ :
        PVSSAggregatedShare Int Int Int Nat).aggregate
        ⟨2, 1, ⟨[0, 0], [0, 0]⟩, [(5, ⟨⟨1, 0⟩, 0⟩)]⟩ =
      RustResult.ok ⟨2, 1, ⟨[0, 0], [0, 0]⟩, []⟩ ∧
    (PVSSAggregatedShare.empty 2 0 : PVSSAggregatedShare Int Int Int Nat).contributions = [] ∧
    (PVSSAggregatedShare.empty 2 0 : PVSSAggregatedShare Int Int Int Nat).aggregate
        (PVSSAggregatedShare.empty 2 0) = RustResult.panicked := by
  exact ⟨rfl, rfl, by decide, by decide, rfl, rfl⟩

/-- C1 amended: under equal configurations, if some id below
`num_participants` is present in both contributions maps with unequal
commitment fields then `aggregate` fails with the equivocation kind
`TranscriptDifferentCommitments`; and if the commitment fields agree at
every shared id and the two cores have matching non-zero vector lengths,
the merge succeeds and keeps `self`'s `SignedProof` at every shared id
below `num_participants`. -/
theorem aggregate_equivocation_amended {G1 G2 GS Sig : Type} [Add G1] [Add G2]
    [DecidableEq GS] (a b : PVSSAggregatedShare G1 G2 GS Sig)
    (hd : a.degree = b.degree) (hn : a.num_participants = b.num_participants) :
    (∀ (i : Nat) (pa pb : SignedProof GS Sig), i < a.num_participants →
      lookupMap i a.contributions = some pa →
      lookupMap i b.contributions = some pb →
      pa.decomp_proof.gs ≠ pb.decomp_proof.gs →
      a.aggregate b = RustResult.err PVSSError.TranscriptDifferentCommitments) ∧
    ((∀ (i : Nat) (pa pb : SignedProof GS Sig),
        lookupMap i a.contributions = some pa →
        lookupMap i b.contributions = some pb →
        pa.decomp_proof.gs = pb.decomp_proof.gs) →
      a.pvss_core.comms.length ≠ 0 →
      a.pvss_core.comms.length = b.pvss_core.comms.length →
      a.pvss_core.encs.length = b.pvss_core.encs.length →
      a.pvss_core.comms.length = a.pvss_core.encs.length →
      ∃ r, a.aggregate b = RustResult.ok r ∧
        ∀ (i : Nat) (pa pb : SignedProof GS Sig), i < a.num_participants →
          lookupMap i a.contributions = some pa →
          lookupMap i b.contributions = some pb →
          lookupMap i r.contributions = some pa) := by
  constructor
  · intro i pa pb hi hpa hpb hgs
    have hcf : conflictAt a.contributions b.contributions i = true := by
      unfold conflictAt
      rw [hpa, hpb]
      simp [hgs]
    have hml := mergeLoop_conflict a.contributions b.contributions
      (List.range a.num_participants) i (List.mem_range.mpr hi) hcf
    unfold PVSSAggregatedShare.aggregate
    rw [if_neg (by simp [hd, hn])]
    rw [hml]
  · intro hag h0 hcc hee hce
    have hnc : ∀ i ∈ List.range a.num_participants,
        conflictAt a.contributions b.contributions i = false := by
      intro i _
      unfold conflictAt
      cases hpa : lookupMap i a.contributions with
      | none => cases lookupMap i b.contributions <;> rfl
      | some pa =>
        cases hpb : lookupMap i b.contributions with
        | none => rfl
        | some pb => simp [hag i pa pb hpa hpb]
    refine ⟨⟨a.num_participants, a.degree,
      ⟨List.zipWith (fun x y => x + y) a.pvss_core.encs b.pvss_core.encs,
       List.zipWith (fun x y => x + y) a.pvss_core.comms b.pvss_core.comms⟩,
      (List.range a.num_participants).filterMap fun i =>
        (mergedEntry a.contributions b.contributions i).map fun p => (i, p)⟩,
      ?_, ?_⟩
    · unfold PVSSAggregatedShare.aggregate
      rw [if_neg (by simp [hd, hn])]
      rw [mergeLoop_ok_of_not_conflict _ _ _ hnc]
      unfold PVSSCore.aggregate
      rw [if_neg h0, if_neg (by omega), if_neg (by omega), if_neg (by omega)]
    · intro i pa pb hi hpa hpb
      rw [lookupMap_filterMap _ _ (List.nodup_range _) i]
      rw [if_pos (List.mem_range.mpr hi)]
      unfold mergedEntry
      rw [hpa, hpb]

/-- Witness for the amended C1: a concrete equivocating pair at id 0 with
`num_participants = 1` is rejected with `TranscriptDifferentCommitments`. -/
theorem aggregate_equivocation_amended_witness :
    (⟨1, 0, ⟨[(0 : Int)], [(0 : Int)]⟩, [(0, ⟨⟨(0 : Int), 0⟩, (0 : Nat)⟩)]⟩ :
        PVSSAggregatedShare Int Int Int Nat).aggregate
        ⟨1, 0, ⟨[0], [0]⟩, [(0, ⟨⟨1, 0⟩, 0⟩)]⟩ =
      RustResult.err PVSSError.TranscriptDifferentCommitments :=
  (aggregate_equivocation_amended
      (⟨1, 0, ⟨[(0 : Int)], [(0 : Int)]⟩, [(0, ⟨⟨(0 : Int), 0⟩, (0 : Nat)⟩)]⟩ :
        PVSSAggregatedShare Int Int Int Nat)
      ⟨1, 0, ⟨[0], [0]⟩, [(0, ⟨⟨1, 0⟩, 0⟩)]⟩ rfl rfl).1 0
    ⟨⟨0, 0⟩, 0⟩ ⟨⟨1, 0⟩, 0⟩ (by decide) rfl rfl (by decide)

/-- C9: every aggregate returned by `aggregate` or `aggregate_pvss_share`
keys its contributions map inside `[0, num_participants)`; consequently
folding a share whose `participant_id` is out of range returns `Ok` (when
the cores are summable) with the share's proof silently absent from the
contributions map even though its core is summed into the accumulator. -/
theorem contributions_keys_in_range {G1 G2 GS Sig : Type} [Add G1] [Add G2]
    [DecidableEq GS] :
    (∀ (s o r : PVSSAggregatedShare G1 G2 GS Sig),
      s.aggregate o = RustResult.ok r →
      ∀ k p, (k, p) ∈ r.contributions → k < r.num_participants) ∧
    (∀ (s : PVSSAggregatedShare G1 G2 GS Sig) (sh : PVSSShare G1 G2 GS Sig)
        (r : PVSSAggregatedShare G1 G2 GS Sig),
      s.aggregate_pvss_share sh = RustResult.ok r →
      ∀ k p, (k, p) ∈ r.contributions → k < r.num_participants) ∧
    (∀ (s : PVSSAggregatedShare G1 G2 GS Sig) (sh : PVSSShare G1 G2 GS Sig),
      s.num_participants ≤ sh.participant_id →
      s.pvss_core.comms.length ≠ 0 →
      s.pvss_core.comms.length = sh.pvss_core.comms.length →
      s.pvss_core.encs.length = sh.pvss_core.encs.length →
      s.pvss_core.comms.length = s.pvss_core.encs.length →
      ∃ r, s.aggregate_pvss_share sh = RustResult.ok r ∧
        lookupMap sh.participant_id r.contributions = none ∧
        r.pvss_core.encs =
          List.zipWith (fun x y => x + y) s.pvss_core.encs sh.pvss_core.encs ∧
        r.pvss_core.comms =
          List.zipWith (fun x y => x + y) s.pvss_core.comms sh.pvss_core.comms) := by
  have key : ∀ (s o r : PVSSAggregatedShare G1 G2 GS Sig),
      s.aggregate o = RustResult.ok r →
      ∀ k p, (k, p) ∈ r.contributions → k < r.num_participants := by
    intro s o r h k p hm
    unfold PVSSAggregatedShare.aggregate at h
    by_cases hc : s.degree ≠ o.degree ∨ s.num_participants ≠ o.num_participants
    · rw [if_pos hc] at h
      cases h
    · rw [if_neg hc] at h
      cases hml : mergeLoop s.contributions o.contributions
          (List.range s.num_participants) with
      | error e =>
        rw [hml] at h
        simp only [] at h
        cases h
      | ok m =>
        rw [hml] at h
        cases hca : s.pvss_core.aggregate o.pvss_core with
        | error e2 =>
          rw [hca] at h
          simp only [] at h
          cases h
        | ok core =>
          rw [hca] at h
          simp only [] at h
          cases h
          exact List.mem_range.mp (mergeLoop_ok_keys _ _ _ _ hml k p hm)
  refine ⟨key, fun s sh r h => key s _ r h, ?_⟩
  intro s sh hid h0 hcc hee hce
  have hnc : ∀ i ∈ List.range s.num_participants,
      conflictAt s.contributions
        [(sh.participant_id,
          ⟨sh.signed_proof.decomp_proof, sh.signed_proof.signature_on_decomp⟩)]
        i = false := by
    intro i hi
    have hlt : i < s.num_participants := List.mem_range.mp hi
    have hne : sh.participant_id ≠ i := by omega
    unfold conflictAt
    rw [lookupMap_singleton, if_neg hne]
    cases lookupMap i s.contributions <;> rfl
  refine ⟨⟨s.num_participants, s.degree,
    ⟨List.zipWith (fun x y => x + y) s.pvss_core.encs sh.pvss_core.encs,
     List.zipWith (fun x y => x + y) s.pvss_core.comms sh.pvss_core.comms⟩,
    (List.range s.num_participants).filterMap fun i =>
      (mergedEntry s.contributions
        [(sh.participant_id,
          ⟨sh.signed_proof.decomp_proof, sh.signed_proof.signature_on_decomp⟩)]
        i).map fun p => (i, p)⟩, ?_, ?_, rfl, rfl⟩
  · unfold PVSSAggregatedShare.aggregate_pvss_share PVSSAggregatedShare.aggregate
    rw [if_neg (by simp)]
    rw [mergeLoop_ok_of_not_conflict _ _ _ hnc]
    unfold PVSSCore.aggregate
    rw [if_neg h0, if_neg (fun hne => hne hcc), if_neg (fun hne => hne hee),
      if_neg (fun hne => hne hce)]
  · rw [lookupMap_filterMap _ _ (List.nodup_range _) _]
    rw [if_neg (by simp only [List.mem_range]; omega)]

/-- Witness for C9 at a concrete input: a one-participant aggregate absorbs
a share labelled with the out-of-range id 5; the result is `Ok`, the proof
for id 5 is absent, and the core is still summed. -/
theorem contributions_keys_in_range_witness :
    ∃ r, (⟨1, 0, ⟨[(0 : Int)], [(0 : Int)]⟩, []⟩ :
        PVSSAggregatedShare Int Int Nat Nat).aggregate_pvss_share
        ⟨5, ⟨[2], [3]⟩, ⟨⟨0, 0⟩, 0⟩⟩ = RustResult.ok r ∧
      lookupMap 5 r.contributions = none ∧
      r.pvss_core.encs = List.zipWith (fun x y => x + y) [(0 : Int)] [2] ∧
      r.pvss_core.comms = List.zipWith (fun x y => x + y) [(0 : Int)] [3] :=
  (contributions_keys_in_range).2.2 ⟨1, 0, ⟨[0], [0]⟩, []⟩
    ⟨5, ⟨[2], [3]⟩, ⟨⟨0, 0⟩, 0⟩⟩ (by decide) (by decide) rfl rfl rfl

/-! ## Characterizing a fold step -/

/-- The contributions map holding `F i` at each id `i < n`, in ascending id
order — the shape `aggregate` produces. -/
def contribOfFun {GS Sig : Type} (n : Nat) (F : Nat → Option (SignedProof GS Sig)) :
    List (Nat × SignedProof GS Sig) :=
  (List.range n).filterMap fun i => (F i).map fun p => (i, p)

theorem lookupMap_contribOfFun {GS Sig : Type} (n : Nat)
    (F : Nat → Option (SignedProof GS Sig)) (i : Nat) :
    lookupMap i (contribOfFun n F) = if i < n then F i else none := by
  unfold contribOfFun
  rw [lookupMap_filterMap _ _ (List.nodup_range _) i]
  simp [List.mem_range]

theorem contribOfFun_none {GS Sig : Type} (n : Nat) :
    contribOfFun n (fun _ => (none : Option (SignedProof GS Sig))) = [] := by
  unfold contribOfFun
  simp

theorem filterMap_single_nil {α : Type} (l : List Nat) (k : Nat) (hk : k ∉ l)
    (v : α) :
    (l.filterMap fun i => ((if i = k then some v else none).map fun p => (i, p))) =
      [] := by
  induction l with
  | nil => rfl
  | cons j l ih =>
    have hjk : ¬ j = k := fun h => hk (by rw [← h]; exact List.mem_cons_self j l)
    rw [List.filterMap_cons, if_neg hjk, Option.map_none']
    exact ih fun h => hk (List.mem_cons_of_mem j h)

theorem filterMap_single {α : Type} (l : List Nat) (hl : l.Nodup) (k : Nat)
    (hk : k ∈ l) (v : α) :
    (l.filterMap fun i => ((if i = k then some v else none).map fun p => (i, p))) =
      [(k, v)] := by
  induction l with
  | nil => cases hk
  | cons j l ih =>
    rw [List.nodup_cons] at hl
    rcases List.mem_cons.mp hk with rfl | hmem
    · rw [List.filterMap_cons, if_pos rfl, Option.map_some']
      rw [filterMap_single_nil l k hl.1 v]
    · have hjk : ¬ j = k := fun h => hl.1 (by rw [h]; exact hmem)
      rw [List.filterMap_cons, if_neg hjk, Option.map_none']
      exact ih hl.2 hmem

theorem contribOfFun_single {GS Sig : Type} (n k : Nat) (v : SignedProof GS Sig)
    (hk : k < n) :
    contribOfFun n (fun i => if i = k then some v else none) = [(k, v)] :=
  filterMap_single (List.range n) (List.nodup_range _) k (List.mem_range.mpr hk) v

/-- Folding one share with a fresh in-range id into an aggregate of the
canonical shape: the fold succeeds, sums the cores pointwise, and records
the share's proof at its id. -/
theorem fold_step_new {G1 G2 GS Sig : Type} [Add G1] [Add G2] [DecidableEq GS]
    (n : Nat) (F : Nat → Option (SignedProof GS Sig))
    (acc : PVSSAggregatedShare G1 G2 GS Sig) (sh : PVSSShare G1 G2 GS Sig)
    (hnum : acc.num_participants = n)
    (hacc : acc.contributions = contribOfFun n F)
    (hae : acc.pvss_core.encs.length = n) (hac : acc.pvss_core.comms.length = n)
    (hn : n ≠ 0)
    (hse : sh.pvss_core.encs.length = n) (hsc : sh.pvss_core.comms.length = n)
    (hid : sh.participant_id < n) (hF : F sh.participant_id = none) :
    acc.aggregate_pvss_share sh = RustResult.ok
      ⟨n, acc.degree,
       ⟨List.zipWith (fun a b => a + b) acc.pvss_core.encs sh.pvss_core.encs,
        List.zipWith (fun a b => a + b) acc.pvss_core.comms sh.pvss_core.comms⟩,
       contribOfFun n fun i =>
         if i = sh.participant_id then some sh.signed_proof else F i⟩ := by
  subst hnum
  have h2 : acc.pvss_core.comms.length = sh.pvss_core.comms.length := by
    rw [hac, hsc]
  have h3 : acc.pvss_core.encs.length = sh.pvss_core.encs.length := by
    rw [hae, hse]
  have h4 : ¬ acc.pvss_core.comms.length ≠ acc.pvss_core.encs.length := by omega
  have hnc : ∀ i ∈ List.range acc.num_participants,
      conflictAt acc.contributions
        [(sh.participant_id,
          ⟨sh.signed_proof.decomp_proof, sh.signed_proof.signature_on_decomp⟩)]
        i = false := by
    intro i hi
    unfold conflictAt
    by_cases hie : sh.participant_id = i
    · rw [lookupMap_singleton, if_pos hie, hacc, lookupMap_contribOfFun, ← hie,
        if_pos hid, hF]
    · rw [lookupMap_singleton, if_neg hie]
      cases lookupMap i acc.contributions <;> rfl
  have hme : ∀ i ∈ List.range acc.num_participants,
      ((mergedEntry acc.contributions
          [(sh.participant_id,
            ⟨sh.signed_proof.decomp_proof, sh.signed_proof.signature_on_decomp⟩)]
          i).map fun p => (i, p)) =
        ((if i = sh.participant_id then some sh.signed_proof else F i).map
          fun p => (i, p)) := by
    intro i hi
    have hilt : i < acc.num_participants := List.mem_range.mp hi
    unfold mergedEntry
    by_cases hie : i = sh.participant_id
    · subst hie
      rw [lookupMap_singleton, if_pos rfl, hacc, lookupMap_contribOfFun,
        if_pos hilt, hF, if_pos rfl]
    · rw [lookupMap_singleton, if_neg fun h5 => hie h5.symm, hacc,
        lookupMap_contribOfFun, if_pos hilt, if_neg hie]
      cases F i <;> rfl
  have hcontrib : ((List.range acc.num_participants).filterMap fun i =>
        (mergedEntry acc.contributions
          [(sh.participant_id,
            ⟨sh.signed_proof.decomp_proof, sh.signed_proof.signature_on_decomp⟩)]
          i).map fun p => (i, p)) =
      contribOfFun acc.num_participants fun i =>
        if i = sh.participant_id then some sh.signed_proof else F i := by
    unfold contribOfFun
    exact List.filterMap_congr fun x hx => hme x hx
  unfold PVSSAggregatedShare.aggregate_pvss_share PVSSAggregatedShare.aggregate
  rw [if_neg (by simp)]
  rw [mergeLoop_ok_of_not_conflict _ _ _ hnc, hcontrib]
  unfold PVSSCore.aggregate
  rw [if_neg (by omega), if_neg (fun hne => hne h2), if_neg (fun hne => hne h3),
    if_neg h4]

/-- Folding a share whose id is already recorded with the same commitment
field: the fold succeeds, sums the cores again, and keeps the accumulator's
copy of the proof, leaving the contributions map unchanged. -/
theorem fold_step_dup {G1 G2 GS Sig : Type} [Add G1] [Add G2] [DecidableEq GS]
    (n : Nat) (F : Nat → Option (SignedProof GS Sig))
    (acc : PVSSAggregatedShare G1 G2 GS Sig) (sh : PVSSShare G1 G2 GS Sig)
    (hnum : acc.num_participants = n)
    (hacc : acc.contributions = contribOfFun n F)
    (hae : acc.pvss_core.encs.length = n) (hac : acc.pvss_core.comms.length = n)
    (hn : n ≠ 0)
    (hse : sh.pvss_core.encs.length = n) (hsc : sh.pvss_core.comms.length = n)
    (hid : sh.participant_id < n) (p : SignedProof GS Sig)
    (hF : F sh.participant_id = some p)
    (hgs : p.decomp_proof.gs = sh.signed_proof.decomp_proof.gs) :
    acc.aggregate_pvss_share sh = RustResult.ok
      ⟨n, acc.degree,
       ⟨List.zipWith (fun a b => a + b) acc.pvss_core.encs sh.pvss_core.encs,
        List.zipWith (fun a b => a + b) acc.pvss_core.comms sh.pvss_core.comms⟩,
       contribOfFun n F⟩ := by
  subst hnum
  have h2 : acc.pvss_core.comms.length = sh.pvss_core.comms.length := by
    rw [hac, hsc]
  have h3 : acc.pvss_core.encs.length = sh.pvss_core.encs.length := by
    rw [hae, hse]
  have h4 : ¬ acc.pvss_core.comms.length ≠ acc.pvss_core.encs.length := by omega
  have hnc : ∀ i ∈ List.range acc.num_participants,
      conflictAt acc.contributions
        [(sh.participant_id,
          ⟨sh.signed_proof.decomp_proof, sh.signed_proof.signature_on_decomp⟩)]
        i = false := by
    intro i hi
    unfold conflictAt
    by_cases hie : sh.participant_id = i
    · rw [lookupMap_singleton, if_pos hie, hacc, lookupMap_contribOfFun, ← hie,
        if_pos hid, hF]
      simp [hgs]
    · rw [lookupMap_singleton, if_neg hie]
      cases lookupMap i acc.contributions <;> rfl
  have hme : ∀ i ∈ List.range acc.num_participants,
      ((mergedEntry acc.contributions
          [(sh.participant_id,
            ⟨sh.signed_proof.decomp_proof, sh.signed_proof.signature_on_decomp⟩)]
          i).map fun p2 => (i, p2)) =
        ((F i).map fun p2 => (i, p2)) := by
    intro i hi
    have hilt : i < acc.num_participants := List.mem_range.mp hi
    unfold mergedEntry
    by_cases hie : i = sh.participant_id
    · subst hie
      rw [lookupMap_singleton, if_pos rfl, hacc, lookupMap_contribOfFun,
        if_pos hilt, hF]
    · rw [lookupMap_singleton, if_neg fun h5 => hie h5.symm, hacc,
        lookupMap_contribOfFun, if_pos hilt]
      cases F i <;> rfl
  have hcontrib : ((List.range acc.num_participants).filterMap fun i =>
        (mergedEntry acc.contributions
          [(sh.participant_id,
            ⟨sh.signed_proof.decomp_proof, sh.signed_proof.signature_on_decomp⟩)]
          i).map fun p2 => (i, p2)) =
      contribOfFun acc.num_participants F := by
    unfold contribOfFun
    exact List.filterMap_congr fun x hx => hme x hx
  unfold PVSSAggregatedShare.aggregate_pvss_share PVSSAggregatedShare.aggregate
  rw [if_neg (by simp)]
  rw [mergeLoop_ok_of_not_conflict _ _ _ hnc, hcontrib]
  unfold PVSSCore.aggregate
  rw [if_neg (by omega), if_neg (fun hne => hne h2), if_neg (fun hne => hne h3),
    if_neg h4]

/-- C6: folding the same in-range share into `empty(t, n)` twice returns
`Ok` both times; the final contributions map has exactly the one entry for
the share's id, while the final core is the pointwise doubling of the
share's core — the core sum is not deduplicated. -/
theorem fold_same_share_twice {G1 G2 GS Sig : Type} [AddMonoid G1] [AddMonoid G2]
    [DecidableEq GS] (t n : Nat) (S : PVSSShare G1 G2 GS Sig)
    (hid : S.participant_id < n)
    (hse : S.pvss_core.encs.length = n) (hsc : S.pvss_core.comms.length = n) :
    ∃ r1 r2 : PVSSAggregatedShare G1 G2 GS Sig,
      (PVSSAggregatedShare.empty t n).aggregate_pvss_share S = RustResult.ok r1 ∧
      r1.aggregate_pvss_share S = RustResult.ok r2 ∧
      r2.contributions = [(S.participant_id, S.signed_proof)] ∧
      r2.pvss_core.encs = S.pvss_core.encs.map (fun x => x + x) ∧
      r2.pvss_core.comms = S.pvss_core.comms.map (fun x => x + x) := by
  have hn : n ≠ 0 := by omega
  refine ⟨⟨n, t,
      ⟨List.zipWith (fun a b => a + b) (List.replicate n 0) S.pvss_core.encs,
       List.zipWith (fun a b => a + b) (List.replicate n 0) S.pvss_core.comms⟩,
      contribOfFun n fun i =>
        if i = S.participant_id then some S.signed_proof else none⟩,
    ⟨n, t,
      ⟨List.zipWith (fun a b => a + b)
         (List.zipWith (fun a b => a + b) (List.replicate n 0) S.pvss_core.encs)
         S.pvss_core.encs,
       List.zipWith (fun a b => a + b)
         (List.zipWith (fun a b => a + b) (List.replicate n 0) S.pvss_core.comms)
         S.pvss_core.comms⟩,
      contribOfFun n fun i =>
        if i = S.participant_id then some S.signed_proof else none⟩,
    ?_, ?_, ?_, ?_, ?_⟩
  · exact fold_step_new n (fun _ => none) (PVSSAggregatedShare.empty t n) S rfl
      (contribOfFun_none n).symm (by simp [PVSSAggregatedShare.empty, PVSSCore.empty])
      (by simp [PVSSAggregatedShare.empty, PVSSCore.empty]) hn hse hsc hid rfl
  · exact fold_step_dup n
      (fun i => if i = S.participant_id then some S.signed_proof else none)
      ⟨n, t,
        ⟨List.zipWith (fun a b => a + b) (List.replicate n 0) S.pvss_core.encs,
         List.zipWith (fun a b => a + b) (List.replicate n 0) S.pvss_core.comms⟩,
        contribOfFun n fun i =>
          if i = S.participant_id then some S.signed_proof else none⟩ S rfl rfl
      (by simp [hse]) (by simp [hsc]) hn hse hsc hid S.signed_proof (by simp) rfl
  · exact contribOfFun_single n S.participant_id S.signed_proof hid
  · show List.zipWith (fun a b => a + b)
        (List.zipWith (fun a b => a + b) (List.replicate n 0) S.pvss_core.encs)
        S.pvss_core.encs = _
    rw [zipWith_add_replicate_zero S.pvss_core.encs n hse, zipWith_add_self]
  · show List.zipWith (fun a b => a + b)
        (List.zipWith (fun a b => a + b) (List.replicate n 0) S.pvss_core.comms)
        S.pvss_core.comms = _
    rw [zipWith_add_replicate_zero S.pvss_core.comms n hsc, zipWith_add_self]

/-- Witness for C6 at a concrete input: a singleton integer share at id 0,
`n = 1`, folded twice. -/
theorem fold_same_share_twice_witness :
    ∃ r1 r2 : PVSSAggregatedShare Int Int Nat Nat,
      (PVSSAggregatedShare.empty 3 1).aggregate_pvss_share
          (⟨0, ⟨[2], [5]⟩, ⟨⟨7, 0⟩, 9⟩⟩ : PVSSShare Int Int Nat Nat) =
        RustResult.ok r1 ∧
      r1.aggregate_pvss_share ⟨0, ⟨[2], [5]⟩, ⟨⟨7, 0⟩, 9⟩⟩ = RustResult.ok r2 ∧
      r2.contributions = [(0, ⟨⟨7, 0⟩, 9⟩)] ∧
      r2.pvss_core.encs = ([2] : List Int).map (fun x => x + x) ∧
      r2.pvss_core.comms = ([5] : List Int).map (fun x => x + x) :=
  fold_same_share_twice 3 1 ⟨0, ⟨[2], [5]⟩, ⟨⟨7, 0⟩, 9⟩⟩ (by decide) rfl rfl

/-! ## Folding three distinct shares, in any order -/

/-- Pointwise sum of three length-`n` vectors on top of the all-zero
accumulator, in fold order. -/
def sum3 {G : Type} [AddMonoid G] (n : Nat) (l1 l2 l3 : List G) : List G :=
  List.zipWith (fun a b => a + b)
    (List.zipWith (fun a b => a + b)
      (List.zipWith (fun a b => a + b) (List.replicate n 0) l1) l2) l3

/-- The slot function after folding `X`, then `Y`, then `Z`. -/
def tripleSlots {G1 G2 GS Sig : Type} (X Y Z : PVSSShare G1 G2 GS Sig) :
    Nat → Option (SignedProof GS Sig) := fun i =>
  if i = Z.participant_id then some Z.signed_proof
  else if i = Y.participant_id then some Y.signed_proof
  else if i = X.participant_id then some X.signed_proof
  else none

/-- The aggregate reached from `empty(t, n)` by folding `X`, `Y`, `Z`. -/
def tripleAgg {G1 G2 GS Sig : Type} [AddMonoid G1] [AddMonoid G2]
    (t n : Nat) (X Y Z : PVSSShare G1 G2 GS Sig) :
    PVSSAggregatedShare G1 G2 GS Sig :=
  ⟨n, t, ⟨sum3 n X.pvss_core.encs Y.pvss_core.encs Z.pvss_core.encs,
          sum3 n X.pvss_core.comms Y.pvss_core.comms Z.pvss_core.comms⟩,
   contribOfFun n (tripleSlots X Y Z)⟩

theorem if_some_swap {α : Type} (k1 k2 : Nat) (hk : k1 ≠ k2) (v1 v2 : α)
    (g : Nat → Option α) (i : Nat) :
    (if i = k1 then some v1 else if i = k2 then some v2 else g i) =
      (if i = k2 then some v2 else if i = k1 then some v1 else g i) := by
  by_cases h1 : i = k1
  · subst h1
    rw [if_pos rfl, if_neg hk, if_pos rfl]
  · rw [if_neg h1]
    by_cases h2 : i = k2
    · subst h2
      rw [if_pos rfl, if_pos rfl]
    · rw [if_neg h2, if_neg h2, if_neg h1]

theorem zipWith_add_swap {G : Type} [AddCommMonoid G] (a l1 l2 : List G) :
    List.zipWith (fun x y => x + y) (List.zipWith (fun x y => x + y) a l1) l2 =
      List.zipWith (fun x y => x + y) (List.zipWith (fun x y => x + y) a l2) l1 := by
  rw [zipWith_add_assoc, zipWith_add_assoc, zipWith_add_comm l1 l2]

theorem tripleAgg_swap12 {G1 G2 GS Sig : Type} [AddCommMonoid G1]
    [AddCommMonoid G2] (t n : Nat) (X Y Z : PVSSShare G1 G2 GS Sig)
    (hxy : X.participant_id ≠ Y.participant_id) :
    tripleAgg t n X Y Z = tripleAgg t n Y X Z := by
  have he : sum3 n X.pvss_core.encs Y.pvss_core.encs Z.pvss_core.encs =
      sum3 n Y.pvss_core.encs X.pvss_core.encs Z.pvss_core.encs := by
    unfold sum3
    rw [zipWith_add_swap (List.replicate n 0) X.pvss_core.encs Y.pvss_core.encs]
  have hc : sum3 n X.pvss_core.comms Y.pvss_core.comms Z.pvss_core.comms =
      sum3 n Y.pvss_core.comms X.pvss_core.comms Z.pvss_core.comms := by
    unfold sum3
    rw [zipWith_add_swap (List.replicate n 0) X.pvss_core.comms Y.pvss_core.comms]
  have hf : tripleSlots X Y Z = tripleSlots Y X Z := by
    funext i
    unfold tripleSlots
    by_cases hiz : i = Z.participant_id
    · rw [if_pos hiz, if_pos hiz]
    · rw [if_neg hiz, if_neg hiz]
      exact if_some_swap Y.participant_id X.participant_id
        (fun h => hxy h.symm) Y.signed_proof X.signed_proof (fun _ => none) i
  unfold tripleAgg
  rw [he, hc, hf]

theorem tripleAgg_swap23 {G1 G2 GS Sig : Type} [AddCommMonoid G1]
    [AddCommMonoid G2] (t n : Nat) (X Y Z : PVSSShare G1 G2 GS Sig)
    (hyz : Y.participant_id ≠ Z.participant_id) :
    tripleAgg t n X Y Z = tripleAgg t n X Z Y := by
  have he : sum3 n X.pvss_core.encs Y.pvss_core.encs Z.pvss_core.encs =
      sum3 n X.pvss_core.encs Z.pvss_core.encs Y.pvss_core.encs := by
    unfold sum3
    rw [zipWith_add_swap
      (List.zipWith (fun x y => x + y) (List.replicate n 0) X.pvss_core.encs)
      Y.pvss_core.encs Z.pvss_core.encs]
  have hc : sum3 n X.pvss_core.comms Y.pvss_core.comms Z.pvss_core.comms =
      sum3 n X.pvss_core.comms Z.pvss_core.comms Y.pvss_core.comms := by
    unfold sum3
    rw [zipWith_add_swap
      (List.zipWith (fun x y => x + y) (List.replicate n 0) X.pvss_core.comms)
      Y.pvss_core.comms Z.pvss_core.comms]
  have hf : tripleSlots X Y Z = tripleSlots X Z Y := by
    funext i
    unfold tripleSlots
    exact if_some_swap Z.participant_id Y.participant_id
      (fun h => hyz h.symm) Z.signed_proof Y.signed_proof
      (fun j => if j = X.participant_id then some X.signed_proof else none) i
  unfold tripleAgg
  rw [he, hc, hf]

theorem fold_three {G1 G2 GS Sig : Type} [AddMonoid G1] [AddMonoid G2]
    [DecidableEq GS] (t n : Nat) (X Y Z : PVSSShare G1 G2 GS Sig)
    (hx : X.participant_id < n) (hy : Y.participant_id < n)
    (hz : Z.participant_id < n)
    (hxy : X.participant_id ≠ Y.participant_id)
    (hxz : X.participant_id ≠ Z.participant_id)
    (hyz : Y.participant_id ≠ Z.participant_id)
    (hxe : X.pvss_core.encs.length = n) (hxc : X.pvss_core.comms.length = n)
    (hye : Y.pvss_core.encs.length = n) (hyc : Y.pvss_core.comms.length = n)
    (hze : Z.pvss_core.encs.length = n) (hzc : Z.pvss_core.comms.length = n) :
    foldShares (PVSSAggregatedShare.empty t n) [X, Y, Z] =
      RustResult.ok (tripleAgg t n X Y Z) := by
  have hn : n ≠ 0 := by omega
  have h1 : (PVSSAggregatedShare.empty t n :
        PVSSAggregatedShare G1 G2 GS Sig).aggregate_pvss_share X =
      RustResult.ok ⟨n, t,
        ⟨List.zipWith (fun a b => a + b) (List.replicate n 0) X.pvss_core.encs,
         List.zipWith (fun a b => a + b) (List.replicate n 0) X.pvss_core.comms⟩,
        contribOfFun n fun i =>
          if i = X.participant_id then some X.signed_proof else none⟩ :=
    fold_step_new n (fun _ => none) (PVSSAggregatedShare.empty t n) X rfl
      (contribOfFun_none n).symm
      (by simp [PVSSAggregatedShare.empty, PVSSCore.empty])
      (by simp [PVSSAggregatedShare.empty, PVSSCore.empty]) hn hxe hxc hx rfl
  have h2 : (⟨n, t,
        ⟨List.zipWith (fun a b => a + b) (List.replicate n 0) X.pvss_core.encs,
         List.zipWith (fun a b => a + b) (List.replicate n 0) X.pvss_core.comms⟩,
        contribOfFun n fun i =>
          if i = X.participant_id then some X.signed_proof else none⟩ :
        PVSSAggregatedShare G1 G2 GS Sig).aggregate_pvss_share Y =
      RustResult.ok ⟨n, t,
        ⟨List.zipWith (fun a b => a + b)
           (List.zipWith (fun a b => a + b) (List.replicate n 0) X.pvss_core.encs)
           Y.pvss_core.encs,
         List.zipWith (fun a b => a + b)
           (List.zipWith (fun a b => a + b) (List.replicate n 0) X.pvss_core.comms)
           Y.pvss_core.comms⟩,
        contribOfFun n fun i =>
          if i = Y.participant_id then some Y.signed_proof
          else if i = X.participant_id then some X.signed_proof else none⟩ :=
    fold_step_new n
      (fun i => if i = X.participant_id then some X.signed_proof else none)
      _ Y rfl rfl (by simp [hxe]) (by simp [hxc]) hn hye hyc hy
      (by
        show (if Y.participant_id = X.participant_id
          then some X.signed_proof else none) = none
        rw [if_neg (fun h => hxy h.symm)])
  have h3 : (⟨n, t,
        ⟨List.zipWith (fun a b => a + b)
           (List.zipWith (fun a b => a + b) (List.replicate n 0) X.pvss_core.encs)
           Y.pvss_core.encs,
         List.zipWith (fun a b => a + b)
           (List.zipWith (fun a b => a + b) (List.replicate n 0) X.pvss_core.comms)
           Y.pvss_core.comms⟩,
        contribOfFun n fun i =>
          if i = Y.participant_id then some Y.signed_proof
          else if i = X.participant_id then some X.signed_proof else none⟩ :
        PVSSAggregatedShare G1 G2 GS Sig).aggregate_pvss_share Z =
      RustResult.ok (tripleAgg t n X Y Z) :=
    fold_step_new n
      (fun i => if i = Y.participant_id then some Y.signed_proof
        else if i = X.participant_id then some X.signed_proof else none)
      _ Z rfl rfl (by simp [hxe, hye]) (by simp [hxc, hyc]) hn hze hzc hz
      (by
        show (if Z.participant_id = Y.participant_id then some Y.signed_proof
          else if Z.participant_id = X.participant_id
          then some X.signed_proof else none) = none
        rw [if_neg (fun h => hyz h.symm), if_neg (fun h => hxz h.symm)])
  simp only [foldShares]
  rw [h1]
  simp only []
  rw [h2]
  simp only []
  rw [h3]

/-- C2: folding three shares with pairwise-distinct in-range participant
ids and full-length cores into `empty(t, n)` in any order (any permutation
of the three) yields the same `PVSSAggregatedShare`: the same summed
`pvss_core` and the same contributions map. -/
theorem fold_shares_perm_invariant {G1 G2 GS Sig : Type}
    [AddCommMonoid G1] [AddCommMonoid G2] [DecidableEq GS]
    (t n : Nat) (A B C : PVSSShare G1 G2 GS Sig)
    (hA : A.participant_id < n) (hB : B.participant_id < n)
    (hC : C.participant_id < n)
    (hAB : A.participant_id ≠ B.participant_id)
    (hAC : A.participant_id ≠ C.participant_id)
    (hBC : B.participant_id ≠ C.participant_id)
    (hAe : A.pvss_core.encs.length = n) (hAc : A.pvss_core.comms.length = n)
    (hBe : B.pvss_core.encs.length = n) (hBc : B.pvss_core.comms.length = n)
    (hCe : C.pvss_core.encs.length = n) (hCc : C.pvss_core.comms.length = n)
    (l : List (PVSSShare G1 G2 GS Sig)) (hl : l.Perm [A, B, C]) :
    ∃ r, foldShares (PVSSAggregatedShare.empty t n) l = RustResult.ok r ∧
      foldShares (PVSSAggregatedShare.empty t n) [A, B, C] = RustResult.ok r := by
  refine ⟨tripleAgg t n A B C, ?_,
    fold_three t n A B C hA hB hC hAB hAC hBC hAe hAc hBe hBc hCe hCc⟩
  obtain ⟨a, b, c, rfl⟩ : ∃ a b c, l = [a, b, c] := by
    rcases l with _ | ⟨a, _ | ⟨b, _ | ⟨c, _ | ⟨d, l⟩⟩⟩⟩
    · exact absurd hl.length_eq (by simp)
    · exact absurd hl.length_eq (by simp)
    · exact absurd hl.length_eq (by simp)
    · exact ⟨a, b, c, rfl⟩
    · exact absurd hl.length_eq (by simp)
  have pair_case : ∀ (p q P Q : PVSSShare G1 G2 GS Sig), [p, q].Perm [P, Q] →
      (p = P ∧ q = Q) ∨ (p = Q ∧ q = P) := by
    intro p q P Q hpq
    rcases List.mem_cons.mp (hpq.subset (List.mem_cons_self p [q])) with h1 | h1
    · subst h1
      have hq : q = Q := by
        have h2 := List.perm_singleton.mp hpq.cons_inv
        simpa using h2
      exact Or.inl ⟨rfl, hq⟩
    · have hp : p = Q := by simpa using h1
      subst hp
      have hq : q = P := by
        have h2 := List.perm_singleton.mp
          ((hpq.trans (List.Perm.swap p P [])).cons_inv)
        simpa using h2
      exact Or.inr ⟨rfl, hq⟩
  have tri : (a = A ∧ [b, c].Perm [B, C]) ∨ (a = B ∧ [b, c].Perm [A, C]) ∨
      (a = C ∧ [b, c].Perm [A, B]) := by
    rcases List.mem_cons.mp (hl.subset (List.mem_cons_self a [b, c])) with h1 | h1
    · subst h1
      exact Or.inl ⟨rfl, hl.cons_inv⟩
    · rcases List.mem_cons.mp h1 with h2 | h2
      · subst h2
        exact Or.inr (Or.inl ⟨rfl, (hl.trans (List.Perm.swap a A [C])).cons_inv⟩)
      · have h3 : a = C := by simpa using h2
        subst h3
        have hp : List.Perm [A, B, a] [a, A, B] :=
          (List.Perm.cons A (List.Perm.swap a B [])).trans (List.Perm.swap a A [B])
        exact Or.inr (Or.inr ⟨rfl, (hl.trans hp).cons_inv⟩)
  rcases tri with ⟨rfl, hbc2⟩ | ⟨rfl, hbc2⟩ | ⟨rfl, hbc2⟩
  · rcases pair_case b c B C hbc2 with ⟨rfl, rfl⟩ | ⟨rfl, rfl⟩
    · exact fold_three t n a b c hA hB hC hAB hAC hBC hAe hAc hBe hBc hCe hCc
    · rw [fold_three t n a b c hA hC hB hAC hAB (fun h => hBC h.symm)
        hAe hAc hCe hCc hBe hBc]
      rw [tripleAgg_swap23 t n a b c (fun h => hBC h.symm)]
  · rcases pair_case b c A C hbc2 with ⟨rfl, rfl⟩ | ⟨rfl, rfl⟩
    · rw [fold_three t n a b c hB hA hC (fun h => hAB h.symm) hBC hAC
        hBe hBc hAe hAc hCe hCc]
      rw [tripleAgg_swap12 t n a b c (fun h => hAB h.symm)]
    · rw [fold_three t n a b c hB hC hA hBC (fun h => hAB h.symm)
        (fun h => hAC h.symm) hBe hBc hCe hCc hAe hAc]
      rw [tripleAgg_swap23 t n a b c (fun h => hAC h.symm)]
      rw [tripleAgg_swap12 t n a c b (fun h => hAB h.symm)]
  · rcases pair_case b c A B hbc2 with ⟨rfl, rfl⟩ | ⟨rfl, rfl⟩
    · rw [fold_three t n a b c hC hA hB (fun h => hAC h.symm)
        (fun h => hBC h.symm) hAB hCe hCc hAe hAc hBe hBc]
      rw [tripleAgg_swap12 t n a b c (fun h => hAC h.symm)]
      rw [tripleAgg_swap23 t n b a c (fun h => hBC h.symm)]
    · rw [fold_three t n a b c hC hB hA (fun h => hBC h.symm)
        (fun h => hAC h.symm) (fun h => hAB h.symm) hCe hCc hBe hBc hAe hAc]
      rw [tripleAgg_swap12 t n a b c (fun h => hBC h.symm)]
      rw [tripleAgg_swap23 t n b a c (fun h => hAC h.symm)]
      rw [tripleAgg_swap12 t n b c a (fun h => hAB h.symm)]

/-- Witness for C2 at a concrete input: three integer shares with ids
0, 1, 2 and `n = 3`, folded in the order `[B, C, A]` versus `[A, B, C]`. -/
theorem fold_shares_perm_invariant_witness :
    ∃ r, foldShares
        (PVSSAggregatedShare.empty 1 3 : PVSSAggregatedShare Int Int Nat Nat)
        [⟨1, ⟨[0, 2, 0], [0, 2, 0]⟩, ⟨⟨11, 0⟩, 0⟩⟩,
         ⟨2, ⟨[0, 0, 3], [0, 0, 3]⟩, ⟨⟨12, 0⟩, 0⟩⟩,
         ⟨0, ⟨[1, 0, 0], [1, 0, 0]⟩, ⟨⟨10, 0⟩, 0⟩⟩] = RustResult.ok r ∧
      foldShares
        (PVSSAggregatedShare.empty 1 3 : PVSSAggregatedShare Int Int Nat Nat)
        [⟨0, ⟨[1, 0, 0], [1, 0, 0]⟩, ⟨⟨10, 0⟩, 0⟩⟩,
         ⟨1, ⟨[0, 2, 0], [0, 2, 0]⟩, ⟨⟨11, 0⟩, 0⟩⟩,
         ⟨2, ⟨[0, 0, 3], [0, 0, 3]⟩, ⟨⟨12, 0⟩, 0⟩⟩] = RustResult.ok r :=
  fold_shares_perm_invariant 1 3
    ⟨0, ⟨[1, 0, 0], [1, 0, 0]⟩, ⟨⟨10, 0⟩, 0⟩⟩
    ⟨1, ⟨[0, 2, 0], [0, 2, 0]⟩, ⟨⟨11, 0⟩, 0⟩⟩
    ⟨2, ⟨[0, 0, 3], [0, 0, 3]⟩, ⟨⟨12, 0⟩, 0⟩⟩
    (by decide) (by decide) (by decide) (by decide) (by decide) (by decide)
    rfl rfl rfl rfl rfl rfl _
    ((List.Perm.cons _ (List.Perm.swap _ _ [])).trans (List.Perm.swap _ _ _))

end Optrand
